import Mathlib

/-
Verification of the mephisto parallel-reduction engine
(src/mephisto/include/mephisto/internal/kernels.hpp).

The kernel code under src/ is embedded directly.  The strided iterator
(mephisto/internal/iterator.hpp), the executor / launch geometry and the
host-side final combination are parts of this repository that are not under
src/; the definitions for those carry a doc comment starting with
`Modelled from the spec:` and follow the specification's words.

Machine integers: the kernel's uint32_t / std::size_t indices stay far below
2^32 in every statement proved here, so they are modelled as Nat; element
values (the C++ template parameter TRes, instantiated at int in the tests)
are modelled as Int.  Uninitialized shared-memory or destination slots are
modelled as none.
-/

namespace Mephisto

/-- Fixed lanes-per-block constant of the reduction kernel
(kernels.hpp line 55: static constexpr std::size_t TBlockSize = 256;
it is a plain member constant, not a template parameter). -/
def TBlockSize : Nat := 256

/-- Total lane count of a launch with g blocks: the per-lane iterator stride
of kernels.hpp line 95 is gridDimension * TBlockSize. -/
def laneStride (g : Nat) : Nat := g * TBlockSize

/-- Modelled from the spec: the strided per-lane iterator of
mephisto/internal/iterator.hpp is not under src/.  Spec section 4.1 gives the
state (current linear index, stride, exclusive bound); advance adds the
stride and the iterator is at its end once the position reaches the bound. -/
structure SegmentIterator where
  pos : Nat
  stride : Nat
  bound : Nat

/-- End test of the iterator: true when the position reached the bound
(spec section 4.1). -/
def SegmentIterator.atEnd (it : SegmentIterator) : Bool :=
  decide (it.bound ≤ it.pos)

/-- Advance adds the stride to the current position (spec section 4.1). -/
def SegmentIterator.advance (it : SegmentIterator) : SegmentIterator :=
  { it with pos := it.pos + it.stride }

/-- Indices produced by iterating advance until atEnd, as in the per-lane
loop of kernels.hpp line 99.  The fuel argument only bounds the recursion
depth; callers pass a fuel that is provably large enough. -/
def visitedFrom : Nat → SegmentIterator → List Nat
  | 0, _ => []
  | fuel + 1, it => if it.atEnd then [] else it.pos :: visitedFrom fuel it.advance

/-- Element indices one lane visits: the iterator over [start, n) with the
given stride (kernels.hpp lines 94-99). -/
def laneIndices (start stride n : Nat) : List Nat :=
  visitedFrom n { pos := start, stride := stride, bound := n }

/-- Modelled from the spec: the reduction functor func handed to ReduceKernel
is constructed by executor code that is not under src/.  Spec section 4.2
steps 2-3: each lane folds the elements it visits into a private accumulator
seeded with the first visited value and the result lands in the lane's shared
slot; a lane that visits no element leaves its slot unwritten (none). -/
def laneAccum (f : Int → Int → Int) (src : Nat → Int) (start stride n : Nat) : Option Int :=
  match laneIndices start stride n with
  | [] => none
  | i :: rest => some (rest.foldl (fun a j => f a (src j)) (src i))

/-- Call trace of the per-lane loop as written in kernels.hpp line 99: one
invocation func(blockIndex, 0, sdata.data, element address) per visited
element.  Recorded components: (blockIndex, the literal second argument 0,
the source element index behind the passed address). -/
def laneFuncCalls (bi t g n : Nat) : List (Nat × Nat × Nat) :=
  (laneIndices (bi * TBlockSize + t) (laneStride g) n).map (fun i => (bi, 0, i))

/-- Contents of the shared array sdata after the per-lane phase and the first
barrier (kernels.hpp lines 94-101): slot t of block bi holds the accumulator
of the lane with linearized index bi * TBlockSize + t; slots at or beyond
TBlockSize are outside the array. -/
def sdataInit (f : Int → Int → Int) (src : Nat → Int) (g bi n : Nat) : Nat → Option Int :=
  fun t =>
    if t < TBlockSize then laneAccum f src (bi * TBlockSize + t) (laneStride g) n
    else none

/-- One round of the in-block tree fold (kernels.hpp lines 117-132): lane t
combines slots t and t + u with the built-in + operator exactly when the four
guard conditions of lines 118-126 hold; otherwise its slot is untouched.
Reading an unwritten slot in a combine yields none (junk). -/
def roundStep (n bi u : Nat) (sd : Nat → Option Int) : Nat → Option Int :=
  fun t =>
    if t < u ∧ t + u < TBlockSize ∧ bi * TBlockSize + t + u < n ∧ t < n then
      match sd t, sd (t + u) with
      | some a, some b => some (a + b)
      | _, _ => none
    else sd t

/-- The round as the spec's wording of the claim has it, combining with the
kernel's function f instead of the built-in +.  Kept only to be compared with
roundStep, which is the translation of the source. -/
def roundStepSpec (f : Int → Int → Int) (n bi u : Nat) (sd : Nat → Option Int) : Nat → Option Int :=
  fun t =>
    if t < u ∧ t + u < TBlockSize ∧ bi * TBlockSize + t + u < n ∧ t < n then
      match sd t, sd (t + u) with
      | some a, some b => some (f a b)
      | _, _ => none
    else sd t

/-- Tree-fold loop of kernels.hpp lines 109-133: currentBlockSize starts at
TBlockSize and halves while above one; each round uses
currentBlockSizeUp = (currentBlockSize + 1) / 2.  The fuel argument only
bounds the number of iterations; TBlockSize iterations are ample since the
size halves every round. -/
def treeLoopFuel : Nat → Nat → Nat → Nat → (Nat → Option Int) → (Nat → Option Int)
  | 0, _, _, _, sd => sd
  | fuel + 1, n, bi, cbs, sd =>
    if 1 < cbs then treeLoopFuel fuel n bi (cbs / 2) (roundStep n bi ((cbs + 1) / 2) sd)
    else sd

/-- The tree fold as the kernel runs it, starting at cbs = TBlockSize. -/
def treeLoop (n bi : Nat) (sd : Nat → Option Int) : Nat → Option Int :=
  treeLoopFuel TBlockSize n bi TBlockSize sd

/-- Slot indices read by the debug printf loop of kernels.hpp lines 107-108,
which runs after the first barrier and prints every one of the TBlockSize
shared slots unconditionally. -/
def printfReadIndices : List Nat := List.range TBlockSize

/-- Guard of the final store (kernels.hpp line 136):
threadIndex == 0 && threadIndex < n. -/
def destWriteCond (t n : Nat) : Bool := decide (t = 0) && decide (t < n)

/-- Value of block bi's shared slot 0 after the tree fold. -/
def blockResult (f : Int → Int → Int) (src : Nat → Int) (g bi n : Nat) : Option Int :=
  treeLoop n bi (sdataInit f src g bi n) 0

/-- Write one slot of the destination buffer. -/
def updateSlot (d : Nat → Option Int) (i : Nat) (v : Option Int) : Nat → Option Int :=
  fun j => if j = i then v else d j

/-- Effect of one whole launch on the destination buffer: blocks run in
ascending order (the serial backend of the tests executes blocks in index
order) and each block's lane 0, when its store guard holds, writes that
block's result to destination[bidx] - the uniform launch argument
block_index of kernels.hpp lines 73 and 138, the same for every block. -/
def runBlocks (f : Int → Int → Int) (src : Nat → Int) (g n bidx : Nat)
    (d0 : Nat → Option Int) : Nat → Option Int :=
  (List.range g).foldl
    (fun d bi => if destWriteCond 0 n then updateSlot d bidx (blockResult f src g bi n) else d)
    d0

/-- Modelled from the spec: the executor's launch geometry is not under src/;
spec section 4.4 computes the grid size as ceil(n / B). -/
def gridSize (n : Nat) : Nat := (n + TBlockSize - 1) / TBlockSize

/-- Modelled from the spec: the host-side final combination is not under
src/; spec section 4.4 folds the block-partial buffer into one result with
the combining function starting from the identity, skipping any
no-contribution slots. -/
def hostCombine (f : Int → Int → Int) (e : Int) (dest : Nat → Option Int) (g : Nat) : Int :=
  (List.range g).foldl
    (fun a s =>
      match dest s with
      | some v => f a v
      | none => a)
    e

/-- Modelled from the spec: the executor issues one kernel launch per reduce
call and n == 0 short-circuits without launching (spec section 4.4). -/
def launchCount (n : Nat) : Nat := if n = 0 then 0 else 1

/-- Modelled from the spec: the reduce entry point (executor code not under
src/).  n = 0 returns the identity without launching; otherwise one launch
with grid size ceil(n / B) runs over a destination buffer of unwritten
slots, with the uniform block_index launch argument taken as 0, followed by
the host-side combination of the buffer. -/
def reduce (f : Int → Int → Int) (e : Int) (src : Nat → Int) (n : Nat) : Int :=
  if n = 0 then e
  else hostCombine f e (runBlocks f src (gridSize n) n 0 (fun _ => none)) (gridSize n)

/-- Sequential left-fold of f over the first n source elements, from e. -/
def seqFold (f : Int → Int → Int) (e : Int) (src : Nat → Int) (n : Nat) : Int :=
  (List.range n).foldl (fun a i => f a (src i)) e

/-- UniversalKernel body (kernels.hpp line 178): a single forwarding call. -/
def universalKernel {α β γ δ : Type} (g : α → Nat → β → γ → δ)
    (acc : α) (bidx : Nat) (res : β) (a : γ) : δ :=
  g acc bidx res a

/-- Invocation list of one UniversalKernel launch: the wrapped function is
called exactly once, with the four arguments forwarded unchanged. -/
def universalKernelCalls {α β γ : Type} (acc : α) (bidx : Nat) (res : β) (a : γ) :
    List (α × Nat × β × γ) :=
  [(acc, bidx, res, a)]

/-- Built-in integer addition, the operation hard-coded in the kernel's tree
fold and the combining function of the repository's transform_reduce test. -/
def intAdd : Int → Int → Int := fun a b => a + b

/-- Integer multiplication: an associative commutative combining function
with identity 1 that differs from +. -/
def intMul : Int → Int → Int := fun a b => a * b

/-- All-ones input, the counting input of spec section 8. -/
def onesSrc : Nat → Int := fun _ => 1

/-- Concrete two-element input 3, 5 used in counterexamples. -/
def cexSrcA : Nat → Int := fun i => if i = 0 then 3 else 5

/-- Input 1, 2, 3, ... of the spec's 5050 scenario. -/
def consecSrc : Nat → Int := fun i => (i : Int) + 1

/-- Concrete shared-array contents with slots 0 and 1 written. -/
def sdPair : Nat → Option Int := fun t => if t = 0 then some 3 else if t = 1 then some 5 else none

/- ------------------------------------------------------------------ -/
/- Helper lemmas                                                       -/
/- ------------------------------------------------------------------ -/

lemma visitedFrom_nil (fuel : Nat) (it : SegmentIterator) (h : it.bound ≤ it.pos) :
    visitedFrom fuel it = [] := by
  cases fuel with
  | zero => rfl
  | succ f => simp [visitedFrom, SegmentIterator.atEnd, h]

lemma visitedFrom_mem (i : Nat) :
    ∀ (fuel : Nat) (it : SegmentIterator), 1 ≤ it.stride → it.bound ≤ it.pos + fuel →
      (i ∈ visitedFrom fuel it ↔ ∃ k, i = it.pos + k * it.stride ∧ i < it.bound) := by
  intro fuel
  induction fuel with
  | zero =>
    intro it hs hb
    constructor
    · intro h
      simp [visitedFrom] at h
    · rintro ⟨k, hk, hlt⟩
      have hp : it.pos ≤ i := by rw [hk]; exact Nat.le_add_right _ _
      omega
  | succ f ih =>
    intro it hs hb
    by_cases hend : it.bound ≤ it.pos
    · rw [visitedFrom_nil _ _ hend]
      constructor
      · intro h
        simp at h
      · rintro ⟨k, hk, hlt⟩
        have hp : it.pos ≤ i := by rw [hk]; exact Nat.le_add_right _ _
        omega
    · push_neg at hend
      have hA : it.atEnd = false := by
        simp [SegmentIterator.atEnd]
        omega
      have hstep : visitedFrom (f + 1) it = it.pos :: visitedFrom f it.advance := by
        simp [visitedFrom, hA]
      rw [hstep, List.mem_cons,
        ih it.advance hs (by simp [SegmentIterator.advance]; omega)]
      constructor
      · rintro (h1 | ⟨k, hk, hlt⟩)
        · exact ⟨0, by simp [h1], by omega⟩
        · refine ⟨k + 1, ?_, ?_⟩
          · simp [SegmentIterator.advance] at hk
            rw [hk]; ring
          · simpa [SegmentIterator.advance] using hlt
      · rintro ⟨k, hk, hlt⟩
        cases k with
        | zero =>
          left
          simpa using hk
        | succ k2 =>
          right
          refine ⟨k2, ?_, ?_⟩
          · simp [SegmentIterator.advance]
            rw [hk]; ring
          · simpa [SegmentIterator.advance] using hlt

lemma mem_laneIndices (start stride n i : Nat) (hs : 1 ≤ stride) :
    i ∈ laneIndices start stride n ↔ ∃ k, i = start + k * stride ∧ i < n := by
  unfold laneIndices
  exact visitedFrom_mem i n { pos := start, stride := stride, bound := n } hs
    (Nat.le_add_left n start)

lemma laneIndices_single (start stride n : Nat) (h1 : start < n) (h2 : n ≤ start + stride) :
    laneIndices start stride n = [start] := by
  unfold laneIndices
  cases n with
  | zero => omega
  | succ m =>
    have hA : SegmentIterator.atEnd { pos := start, stride := stride, bound := m + 1 } = false := by
      simp [SegmentIterator.atEnd]
      omega
    simp [visitedFrom, hA]
    exact visitedFrom_nil m _ (by simp [SegmentIterator.advance]; omega)

lemma laneIndices_empty (start stride n : Nat) (h : n ≤ start) :
    laneIndices start stride n = [] := by
  unfold laneIndices
  exact visitedFrom_nil n _ h

lemma seqFold_intAdd (src : Nat → Int) (e : Int) (n : Nat) :
    seqFold intAdd e src n = e + Finset.sum (Finset.range n) src := by
  induction n with
  | zero => simp [seqFold]
  | succ m ih =>
    unfold seqFold at ih ⊢
    rw [List.range_succ, List.foldl_append, ih, List.foldl_cons, List.foldl_nil,
      Finset.sum_range_succ]
    simp [intAdd]
    ring

/-- Unfolding of the kernel's tree loop: exactly eight rounds, with
currentBlockSizeUp running through 128, 64, 32, 16, 8, 4, 2, 1. -/
lemma treeLoop_eq_rounds (n bi : Nat) (sd : Nat → Option Int) :
    treeLoop n bi sd =
      roundStep n bi 1 (roundStep n bi 2 (roundStep n bi 4 (roundStep n bi 8
        (roundStep n bi 16 (roundStep n bi 32 (roundStep n bi 64
          (roundStep n bi 128 sd))))))) := rfl

/-- One round of the block-0 tree fold preserves coverage of the active span
and the running sum: if the slots below min (u + u) n hold the values of w,
then after the round the slots below min u n hold values summing to the same
total. -/
lemma round_preserves (n u : Nat) (S : Int) (_hn : 1 ≤ n) (hu : 1 ≤ u)
    (hub : u + u ≤ TBlockSize) (sd : Nat → Option Int) (w : Nat → Int)
    (hcov : ∀ t, t < min (u + u) n → sd t = some (w t))
    (hsum : Finset.sum (Finset.range (min (u + u) n)) w = S) :
    ∃ w2 : Nat → Int,
      (∀ t, t < min u n → roundStep n 0 u sd t = some (w2 t)) ∧
      Finset.sum (Finset.range (min u n)) w2 = S := by
  refine ⟨fun t => if t + u < n then w t + w (t + u) else w t, ?_, ?_⟩
  · intro t ht
    have htu : t < u := lt_of_lt_of_le ht (min_le_left _ _)
    have htn : t < n := lt_of_lt_of_le ht (min_le_right _ _)
    have hTB : (256 : Nat) = TBlockSize := rfl
    by_cases hc : t + u < n
    · have hg : t < u ∧ t + u < TBlockSize ∧ 0 * TBlockSize + t + u < n ∧ t < n := by
        refine ⟨htu, by omega, by simpa using hc, htn⟩
      simp only [roundStep]
      rw [if_pos hg, hcov t (lt_min (by omega) htn), hcov (t + u) (lt_min (by omega) hc),
        if_pos hc]
    · have hg : ¬(t < u ∧ t + u < TBlockSize ∧ 0 * TBlockSize + t + u < n ∧ t < n) := by
        intro hcon
        exact hc (by simpa using hcon.2.2.1)
      simp only [roundStep]
      rw [if_neg hg, hcov t (lt_min (by omega) htn), if_neg hc]
  · rcases le_or_lt n u with hnu | hun
    · have h1 : min u n = n := Nat.min_eq_right hnu
      have h2 : min (u + u) n = n := Nat.min_eq_right (by omega)
      rw [h1]
      rw [h2] at hsum
      rw [← hsum]
      apply Finset.sum_congr rfl
      intro t ht
      rw [Finset.mem_range] at ht
      rw [if_neg (by omega)]
    · have h1 : min u n = u := Nat.min_eq_left (by omega)
      have hum : u ≤ min (u + u) n := le_min (by omega) (by omega)
      have hm2 : min (u + u) n ≤ u + u := min_le_left _ _
      have hmn : min (u + u) n ≤ n := min_le_right _ _
      have hmc : min (u + u) n = u + u ∨ min (u + u) n = n := min_choice _ _
      set m := min (u + u) n with hmdef
      rw [h1]
      have hsplit : ∀ t ∈ Finset.range u,
          (if t + u < n then w t + w (t + u) else w t)
            = w t + (if t + u < n then w (t + u) else 0) := by
        intro t _
        by_cases hx : t + u < n <;> simp [hx]
      rw [Finset.sum_congr rfl hsplit, Finset.sum_add_distrib]
      have hzero : ∀ x ∈ Finset.range u, x ∉ Finset.range (m - u) →
          (if x + u < n then w (x + u) else 0) = 0 := by
        intro x hx hnx
        rw [Finset.mem_range] at hx
        rw [Finset.mem_range] at hnx
        rw [if_neg (by rcases hmc with h | h <;> omega)]
      have hsub : Finset.range (m - u) ⊆ Finset.range u :=
        Finset.range_subset.mpr (by omega)
      have key : Finset.sum (Finset.range u) (fun t => if t + u < n then w (t + u) else 0)
          = Finset.sum (Finset.range (m - u)) (fun t => w (t + u)) := by
        rw [← Finset.sum_subset hsub hzero]
        apply Finset.sum_congr rfl
        intro t ht
        rw [Finset.mem_range] at ht
        rw [if_pos (by rcases hmc with h | h <;> omega)]
      rw [key, ← hsum]
      have hr : Finset.sum (Finset.range m) w
          = Finset.sum (Finset.range u) w
            + Finset.sum (Finset.range (m - u)) (fun t => w (t + u)) := by
        rw [Finset.range_eq_Ico, ← Finset.sum_Ico_consecutive w (Nat.zero_le u) hum]
        congr 1
        rw [Finset.sum_Ico_eq_sum_range, ← Finset.range_eq_Ico]
        apply Finset.sum_congr rfl
        intro t _
        congr 1
        omega
      rw [hr]

/-- In a single-block launch with n at most TBlockSize, lane t visits exactly
element t (if t < n) and its shared slot holds that value. -/
lemma sdataInit_single (f : Int → Int → Int) (src : Nat → Int) (n t : Nat)
    (htn : t < n) (h2 : n ≤ TBlockSize) :
    sdataInit f src 1 0 n t = some (src t) := by
  have h2' : n ≤ 256 := h2
  have hidx : laneIndices (0 * TBlockSize + t) (laneStride 1) n = [0 * TBlockSize + t] :=
    laneIndices_single _ _ _ (by simpa using htn) (by simp [laneStride, TBlockSize]; omega)
  unfold sdataInit laneAccum
  rw [if_pos (by simp [TBlockSize]; omega), hidx]
  simp

/-- Block 0 of a single-block launch tree-folds its shared array to the sum
of the first n source elements. -/
lemma blockResult_intAdd (src : Nat → Int) (n : Nat) (h1 : 1 ≤ n) (h2 : n ≤ TBlockSize) :
    blockResult intAdd src 1 0 n = some (Finset.sum (Finset.range n) src) := by
  have h2' : n ≤ 256 := h2
  set S := Finset.sum (Finset.range n) src with hS
  set sd0 := sdataInit intAdd src 1 0 n with hsd0
  have hcov0 : ∀ t, t < min (128 + 128) n → sd0 t = some (src t) := by
    intro t ht
    exact sdataInit_single intAdd src n t (lt_of_lt_of_le ht (min_le_right _ _)) h2
  have hm0 : min (128 + 128) n = n := Nat.min_eq_right (by omega)
  have hsum0 : Finset.sum (Finset.range (min (128 + 128) n)) src = S := by rw [hm0]
  obtain ⟨w1, hc1, hs1⟩ := round_preserves n 128 S h1 (by omega)
    (by simp [TBlockSize]) sd0 src hcov0 hsum0
  obtain ⟨w2, hc2, hs2⟩ := round_preserves n 64 S h1 (by omega)
    (by simp [TBlockSize]) (roundStep n 0 128 sd0) w1 hc1 hs1
  obtain ⟨w3, hc3, hs3⟩ := round_preserves n 32 S h1 (by omega)
    (by simp [TBlockSize]) (roundStep n 0 64 (roundStep n 0 128 sd0)) w2 hc2 hs2
  obtain ⟨w4, hc4, hs4⟩ := round_preserves n 16 S h1 (by omega)
    (by simp [TBlockSize]) (roundStep n 0 32 (roundStep n 0 64 (roundStep n 0 128 sd0)))
    w3 hc3 hs3
  obtain ⟨w5, hc5, hs5⟩ := round_preserves n 8 S h1 (by omega)
    (by simp [TBlockSize])
    (roundStep n 0 16 (roundStep n 0 32 (roundStep n 0 64 (roundStep n 0 128 sd0))))
    w4 hc4 hs4
  obtain ⟨w6, hc6, hs6⟩ := round_preserves n 4 S h1 (by omega)
    (by simp [TBlockSize])
    (roundStep n 0 8 (roundStep n 0 16 (roundStep n 0 32 (roundStep n 0 64
      (roundStep n 0 128 sd0)))))
    w5 hc5 hs5
  obtain ⟨w7, hc7, hs7⟩ := round_preserves n 2 S h1 (by omega)
    (by simp [TBlockSize])
    (roundStep n 0 4 (roundStep n 0 8 (roundStep n 0 16 (roundStep n 0 32
      (roundStep n 0 64 (roundStep n 0 128 sd0))))))
    w6 hc6 hs6
  obtain ⟨w8, hc8, hs8⟩ := round_preserves n 1 S h1 (by omega)
    (by simp [TBlockSize])
    (roundStep n 0 2 (roundStep n 0 4 (roundStep n 0 8 (roundStep n 0 16
      (roundStep n 0 32 (roundStep n 0 64 (roundStep n 0 128 sd0)))))))
    w7 hc7 hs7
  have hfin := hc8 0 (lt_min (by omega) (by omega))
  have hw8 : w8 0 = S := by
    have hm1 : min 1 n = 1 := Nat.min_eq_left h1
    rw [hm1, Finset.sum_range_one] at hs8
    exact hs8
  unfold blockResult
  rw [treeLoop_eq_rounds]
  rw [hfin, hw8]

/-- A fold of guarded writes to the single slot bidx leaves every other slot
of the destination buffer unchanged. -/
lemma foldl_write_frame (bidx : Nat) (r : Nat → Option Int) (c : Bool) :
    ∀ (l : List Nat) (d0 : Nat → Option Int) (s : Nat), s ≠ bidx →
      (l.foldl (fun d bi => if c then updateSlot d bidx (r bi) else d) d0) s = d0 s := by
  intro l
  induction l with
  | nil =>
    intro d0 s h
    rfl
  | cons x xs ih =>
    intro d0 s h
    rw [List.foldl_cons, ih _ s h]
    cases c <;> simp [updateSlot, h]

lemma runBlocks_frame (f : Int → Int → Int) (src : Nat → Int) (g n bidx : Nat)
    (d0 : Nat → Option Int) (s : Nat) (h : s ≠ bidx) :
    runBlocks f src g n bidx d0 s = d0 s := by
  unfold runBlocks
  exact foldl_write_frame bidx _ _ (List.range g) d0 s h

/-- When the store guard holds and the grid is non-empty, the uniform slot
holds the result of the last block of the launch. -/
lemma runBlocks_last (f : Int → Int → Int) (src : Nat → Int) (g n bidx : Nat)
    (d0 : Nat → Option Int) (hw : destWriteCond 0 n = true) (hg : 1 ≤ g) :
    runBlocks f src g n bidx d0 bidx = blockResult f src g (g - 1) n := by
  cases g with
  | zero => omega
  | succ g2 =>
    unfold runBlocks
    rw [List.range_succ, List.foldl_append, List.foldl_cons, List.foldl_nil, hw]
    simp [updateSlot]

/-- Number of tree rounds: TBlockSize needs exactly ceil(log2 256) = 8
halvings. -/
lemma clog_TBlockSize : Nat.clog 2 TBlockSize = 8 := by
  have hT : TBlockSize = 256 := rfl
  rw [hT]
  have s1 : Nat.clog 2 256 = Nat.clog 2 128 + 1 := by
    rw [Nat.clog_of_two_le (by norm_num) (by norm_num)]
  have s2 : Nat.clog 2 128 = Nat.clog 2 64 + 1 := by
    rw [Nat.clog_of_two_le (by norm_num) (by norm_num)]
  have s3 : Nat.clog 2 64 = Nat.clog 2 32 + 1 := by
    rw [Nat.clog_of_two_le (by norm_num) (by norm_num)]
  have s4 : Nat.clog 2 32 = Nat.clog 2 16 + 1 := by
    rw [Nat.clog_of_two_le (by norm_num) (by norm_num)]
  have s5 : Nat.clog 2 16 = Nat.clog 2 8 + 1 := by
    rw [Nat.clog_of_two_le (by norm_num) (by norm_num)]
  have s6 : Nat.clog 2 8 = Nat.clog 2 4 + 1 := by
    rw [Nat.clog_of_two_le (by norm_num) (by norm_num)]
  have s7 : Nat.clog 2 4 = Nat.clog 2 2 + 1 := by
    rw [Nat.clog_of_two_le (by norm_num) (by norm_num)]
  have s8 : Nat.clog 2 2 = Nat.clog 2 1 + 1 := by
    rw [Nat.clog_of_two_le (by norm_num) (by norm_num)]
  rw [s1, s2, s3, s4, s5, s6, s7, s8, Nat.clog_one_right]

/- ------------------------------------------------------------------ -/
/- Claim theorems                                                      -/
/- ------------------------------------------------------------------ -/

set_option maxRecDepth 4000 in
/-- C1 (counterexample): the claim that reduce equals the sequential
left-fold for every associative commutative combining function and every
configuration is false on the code.  With f = multiplication (identity 1)
on the two elements 3, 5 the kernel's tree fold still adds and reduce
returns 8 while the fold gives 15; and with f = + over 257 ones the launch
has two blocks, both write the one uniform destination slot, and reduce
returns 1 instead of 257. -/
theorem C1_counterexample :
    reduce intMul 1 cexSrcA 2 ≠ seqFold intMul 1 cexSrcA 2 ∧
    reduce intAdd 0 onesSrc 257 ≠ seqFold intAdd 0 onesSrc 257 := by
  constructor
  · decide
  · decide

/-- C1 (amended): for the built-in integer addition with identity 0 - the
only combining operation the kernel's tree fold implements - and for
single-block launches (problem sizes n at most TBlockSize), reduce equals
the sequential left-fold over the n elements. -/
theorem C1_reduce_add_single_block (src : Nat → Int) (n : Nat) (hn : n ≤ TBlockSize) :
    reduce intAdd 0 src n = seqFold intAdd 0 src n := by
  rcases Nat.eq_zero_or_pos n with h0 | hpos
  · subst h0
    rfl
  · have hn' : n ≤ 256 := hn
    have hG : gridSize n = 1 := by
      simp [gridSize, TBlockSize]
      omega
    unfold reduce
    rw [if_neg (by omega), hG]
    have hw : destWriteCond 0 n = true := by
      simp [destWriteCond]
      omega
    have hrb : runBlocks intAdd src 1 n 0 (fun _ => none)
        = updateSlot (fun _ => none) 0 (blockResult intAdd src 1 0 n) := by
      simp [runBlocks, List.range_succ, hw]
    rw [hrb, blockResult_intAdd src n hpos hn]
    simp [hostCombine, List.range_succ, updateSlot, intAdd]
    rw [seqFold_intAdd]
    simp [intAdd]

set_option maxRecDepth 4000 in
/-- C1 (witness): the spec's concrete scenario - summing 1..100 with + and
identity 0 gives 5050 and matches the sequential fold. -/
theorem C1_witness :
    reduce intAdd 0 consecSrc 100 = seqFold intAdd 0 consecSrc 100 ∧
    seqFold intAdd 0 consecSrc 100 = 5050 :=
  ⟨C1_reduce_add_single_block consecSrc 100 (by decide), by decide⟩

/-- C2: every element index below n is visited by exactly one lane of the
launch - the lane whose strided iterator over [linearizedIndex, n), with
stride the total lane count gridDimension * TBlockSize, contains it. -/
theorem C2_partition_exact (g n i : Nat) (hg : 1 ≤ g) (hi : i < n) :
    ∃! l, l < laneStride g ∧ i ∈ laneIndices l (laneStride g) n := by
  have hL : 1 ≤ laneStride g := by
    simp [laneStride, TBlockSize]
    omega
  refine ⟨i % laneStride g, ⟨Nat.mod_lt i (by omega), ?_⟩, ?_⟩
  · rw [mem_laneIndices _ _ _ _ hL]
    refine ⟨i / laneStride g, ?_, hi⟩
    rw [Nat.mul_comm]
    exact (Nat.mod_add_div i (laneStride g)).symm
  · rintro y ⟨hy, hmem⟩
    obtain ⟨k, hk, _⟩ := (mem_laneIndices _ _ _ _ hL).mp hmem
    rw [hk, Nat.add_mul_mod_self_right]
    exact (Nat.mod_eq_of_lt hy).symm

/-- C2 (witness): in a one-block launch over five elements, element 3 is
visited by exactly one of the 256 lanes. -/
theorem C2_witness :
    ∃! l, l < laneStride 1 ∧ (3 : Nat) ∈ laneIndices l (laneStride 1) 5 :=
  C2_partition_exact 1 5 3 (by decide) (by decide)

/-- C3 (counterexample): the claim that a combining lane performs
sdata[t] = f(sdata[t], sdata[t+u]) is false on the code: the tree fold
hard-codes the built-in + operator.  With f = multiplication and slots
holding 3 and 5, the code's round stores 8 where the claimed round stores
15. -/
theorem C3_counterexample :
    roundStep 2 0 1 sdPair 0 ≠ roundStepSpec intMul 2 0 1 sdPair 0 := by
  decide

/-- C3 (amended): the tree fold runs exactly ceil(log2(TBlockSize)) = 8
rounds with the active span halving each round (the up values are 128, 64,
32, 16, 8, 4, 2, 1), and in a round a lane at local index t stores
sdata[t] + sdata[t + up] - the built-in + operator, not the kernel's
combining functor - exactly when the four guards t < up,
t + up < TBlockSize, blockIndex * TBlockSize + t + up < n and t < n all
hold; otherwise its slot is left unchanged.  Barriers are modelled by the
rounds executing in sequence. -/
theorem C3_tree_rounds :
    Nat.clog 2 TBlockSize = 8 ∧
    (∀ n bi sd, treeLoop n bi sd =
      roundStep n bi 1 (roundStep n bi 2 (roundStep n bi 4 (roundStep n bi 8
        (roundStep n bi 16 (roundStep n bi 32 (roundStep n bi 64
          (roundStep n bi 128 sd)))))))) ∧
    (∀ n bi u sd t a b,
      (t < u ∧ t + u < TBlockSize ∧ bi * TBlockSize + t + u < n ∧ t < n) →
      sd t = some a → sd (t + u) = some b → roundStep n bi u sd t = some (a + b)) ∧
    (∀ n bi u sd t,
      ¬(t < u ∧ t + u < TBlockSize ∧ bi * TBlockSize + t + u < n ∧ t < n) →
      roundStep n bi u sd t = sd t) := by
  refine ⟨clog_TBlockSize, treeLoop_eq_rounds, ?_, ?_⟩
  · intro n bi u sd t a b hg ha hb
    simp only [roundStep]
    rw [if_pos hg, ha, hb]
  · intro n bi u sd t hg
    simp only [roundStep]
    rw [if_neg hg]

/-- C3 (witness): with slots 0 and 1 holding 3 and 5 and n = 2, the round
with up = 1 combines slot 0 to 3 + 5 and leaves slot 1 unchanged. -/
theorem C3_witness :
    roundStep 2 0 1 sdPair 0 = some (3 + 5) ∧ roundStep 2 0 1 sdPair 1 = sdPair 1 :=
  ⟨C3_tree_rounds.2.2.1 2 0 1 sdPair 0 3 5 (by decide) rfl rfl,
   C3_tree_rounds.2.2.2 2 0 1 sdPair 1 (by decide)⟩

/-- C4 (code bug): the debug printf loop of kernels.hpp lines 107-108 reads
every one of the 256 shared slots right after the first barrier; for n = 1
in a one-block launch, slot 1 was written by no lane, so an uninitialized
slot is read, contradicting the claim. -/
theorem C4_uninit_read :
    (1 ∈ printfReadIndices) ∧ sdataInit intAdd onesSrc 1 0 1 1 = none := by
  constructor
  · simp [printfReadIndices, List.mem_range, TBlockSize]
  · decide

/-- C6 (code bug): the per-lane phase as written performs no post-fold store
into sdata[local_lane_index]; it invokes func once per visited element,
always passing the literal 0 as the slot argument.  Lane 1 of block 0 with
n = 2 makes the single call (0, 0, 1) - slot argument 0, not its lane index
1 - and lane 0 with n = 600 makes three per-element calls rather than one
store. -/
theorem C6_call_trace :
    laneFuncCalls 0 1 1 2 = [(0, 0, 1)] ∧
    laneFuncCalls 0 0 1 600 = [(0, 0, 0), (0, 0, 256), (0, 0, 512)] := by
  constructor
  · decide
  · decide

/-- C5 (counterexample): the claim that lane 0 writes the block result if
and only if the block contains a valid element is false on the code: the
store guard of kernels.hpp line 136 is threadIndex == 0 && threadIndex < n,
which for lane 0 is just 0 < n.  At n = 1 the guard holds for every block,
including block 1 whose first global index 256 is not below n. -/
theorem C5_counterexample :
    ¬(destWriteCond 0 1 = true ↔ 1 * TBlockSize < 1) := by
  decide

/-- C5 (amended): lane 0's store guard is equivalent to n > 0, independent
of the block; under the executor's launch geometry grid = ceil(n / B) every
launched block's first global index is below n, so within an actual launch
the store happens exactly when the block holds at least one valid
element. -/
theorem C5_store_guard :
    (∀ t n : Nat, destWriteCond t n = true ↔ (t = 0 ∧ 0 < n)) ∧
    (∀ n bi : Nat, bi < gridSize n → bi * TBlockSize < n) := by
  constructor
  · intro t n
    simp only [destWriteCond, Bool.and_eq_true, decide_eq_true_eq]
    omega
  · intro n bi h
    simp only [gridSize, TBlockSize] at h ⊢
    omega

/-- C5 (witness): the guard holds at n = 5, and block 1 of a launch over
300 elements indeed starts below n. -/
theorem C5_witness :
    destWriteCond 0 5 = true ∧ 1 * TBlockSize < 300 :=
  ⟨(C5_store_guard.1 0 5).mpr ⟨rfl, by decide⟩, C5_store_guard.2 300 1 (by decide)⟩

/-- C7: a reduce over zero elements returns the identity, issues no launch,
and its result does not depend on the combining function. -/
theorem C7_zero_short_circuit :
    ∀ (f h : Int → Int → Int) (e : Int) (src : Nat → Int),
      reduce f e src 0 = e ∧ launchCount 0 = 0 ∧ reduce f e src 0 = reduce h e src 0 :=
  fun _ _ _ _ => ⟨rfl, rfl, rfl⟩

/-- C8: UniversalKernel invokes the wrapped function exactly once per
launch, forwarding the accelerator context, block index, destination and
source unchanged, and computes nothing else. -/
theorem C8_universal_forward :
    ∀ {α β γ δ : Type} (g : α → Nat → β → γ → δ) (acc : α) (bidx : Nat) (res : β) (a : γ),
      universalKernelCalls acc bidx res a = [(acc, bidx, res, a)] ∧
      (universalKernelCalls acc bidx res a).length = 1 ∧
      universalKernel g acc bidx res a = g acc bidx res a :=
  fun _ _ _ _ _ => ⟨rfl, rfl, rfl⟩

/-- C9: the only destination slot a launch can write is the uniform launch
argument bidx - every other slot keeps its prior contents - and when the
store guard holds the slot ends up holding the result of the last block of
the grid, whatever its own grid index is. -/
theorem C9_dest_frame :
    (∀ f src g n bidx d0 s, s ≠ bidx → runBlocks f src g n bidx d0 s = d0 s) ∧
    (∀ f src g n bidx d0, destWriteCond 0 n = true → 1 ≤ g →
      runBlocks f src g n bidx d0 bidx = blockResult f src g (g - 1) n) :=
  ⟨runBlocks_frame, fun f src g n bidx d0 hw hg => runBlocks_last f src g n bidx d0 hw hg⟩

/-- C9 (witness): in a one-block launch over five elements with uniform slot
0, slot 3 stays unwritten and slot 0 holds block 0's result. -/
theorem C9_witness :
    runBlocks intAdd onesSrc 1 5 0 (fun _ => none) 3 = none ∧
    runBlocks intAdd onesSrc 1 5 0 (fun _ => none) 0 = blockResult intAdd onesSrc 1 0 5 :=
  ⟨C9_dest_frame.1 intAdd onesSrc 1 5 0 (fun _ => none) 3 (by decide),
   C9_dest_frame.2 intAdd onesSrc 1 5 0 (fun _ => none) (by decide) (by decide)⟩

/-- C10: the lanes-per-block count is the fixed compile-time constant 256:
the per-lane stride factor is gridDimension * 256 and the shared array has
no slot at or beyond 256.  No parameter of the model (matching the sole
constructor argument func of the kernel) can change it. -/
theorem C10_block_size_fixed :
    TBlockSize = 256 ∧
    (∀ g : Nat, laneStride g = g * 256) ∧
    (∀ f src g bi n t, TBlockSize ≤ t → sdataInit f src g bi n t = none) := by
  refine ⟨rfl, fun g => rfl, ?_⟩
  intro f src g bi n t ht
  unfold sdataInit
  rw [if_neg (by omega)]

/-- C10 (witness): slot 300 of the shared array does not exist. -/
theorem C10_witness :
    sdataInit intAdd onesSrc 1 0 5 300 = none :=
  C10_block_size_fixed.2.2 intAdd onesSrc 1 0 5 300 (by decide)

end Mephisto
